import Mathlib

/-!
# EnglishMaster Pro — verification of the adaptive-learning core

Shallow embedding of the scheduling and progression logic of the
repository: the SM-2 spaced-repetition scheduler (`src/js/ai.js`, `SM2`
object), the vocabulary session orchestrator (`src/js/vocabulary.js`),
the grammar 7-phase acquisition state machine (`src/unnamed/part_006`,
`Grammar` class) and the adaptive placement test
(`src/js/placementTest.js`, `PlacementTest` class).

JavaScript numbers are modelled as exact rationals (`ℚ`) where the code
does fractional arithmetic, and as integers (`ℤ`/`ℕ`) for counters,
intervals and timestamps.  `Math.round` is `jsRound` (round half toward
positive infinity).  `Date.now()` is threaded as an explicit `now : ℤ`
argument.
-/

namespace EM

/-! ## SM-2 scheduler (src/js/ai.js, lines 452-620) -/

/-- Card status tag: `'new' | 'learning' | 'review' | 'learned'`. -/
inductive Status where
  | «new» : Status
  | learning : Status
  | review : Status
  | learned : Status
deriving DecidableEq, Repr

/-- Quality ratings `AGAIN=0, HARD=1, GOOD=2, EASY=3`. -/
inductive Quality where
  | again : Quality
  | hard : Quality
  | good : Quality
  | easy : Quality
deriving DecidableEq, Repr

/-- Numeric value of a quality rating, as in the `SM2` constants. -/
def Quality.val : Quality → ℕ
  | .again => 0
  | .hard => 1
  | .good => 2
  | .easy => 3

/-- One spaced-repetition card, the record built by `SM2.createCard`. -/
structure SM2Card where
  wordId : String
  status : Status
  easeFactor : ℚ
  interval : ℤ
  repetitions : ℕ
  lapses : ℕ
  learningStep : ℕ
  nextReview : ℤ
  lastReview : Option ℤ
deriving DecidableEq, Repr

/-- `SM2.learningSteps = [1, 10]` (minutes). -/
def learningSteps : List ℕ := [1, 10]

/-- `SM2.graduatingInterval = 1` (days). -/
def graduatingInterval : ℤ := 1

/-- `SM2.easyInterval = 4` (days). -/
def easyInterval : ℤ := 4

/-- `SM2.minEaseFactor = 1.3`. -/
def minEaseFactor : ℚ := 13/10

/-- `SM2.maxEaseFactor = 3.0`. -/
def maxEaseFactor : ℚ := 3

/-- `SM2.defaultEaseFactor = 2.5`. -/
def defaultEaseFactor : ℚ := 5/2

/-- JavaScript `Math.round`: round half toward positive infinity. -/
def jsRound (x : ℚ) : ℤ := ⌊x + 1/2⌋

/-- `SM2.createCard(wordId)` (ai.js lines 474-486). -/
def createCard (now : ℤ) (wordId : String) : SM2Card :=
  { wordId := wordId
    status := .new
    easeFactor := defaultEaseFactor
    interval := 0
    repetitions := 0
    lapses := 0
    learningStep := 0
    nextReview := now
    lastReview := none }

/-- `this.learningSteps[i] || this.learningSteps[0]`: a missing entry is
`undefined`, which is falsy exactly like `0`, so the JS `||` fallback is
modelled by defaulting the lookup to `0` and replacing `0` by the head. -/
def stepOrFirst (i : ℕ) : ℕ :=
  let raw := learningSteps.getD i 0
  if raw = 0 then learningSteps.getD 0 0 else raw

/-- `SM2.processLearning(card, quality)` (ai.js lines 507-540). -/
def processLearning (now : ℤ) (card : SM2Card) (q : Quality) : SM2Card :=
  let card :=
    match q with
    | .again =>
        { card with learningStep := 0
                    nextReview := now + (learningSteps.getD 0 0 : ℤ) * 60 * 1000 }
    | .hard =>
        { card with nextReview := now + (stepOrFirst card.learningStep : ℤ) * 60 * 1000 }
    | .good =>
        let step := card.learningStep + 1
        if learningSteps.length ≤ step then
          { card with learningStep := step
                      status := .review
                      interval := graduatingInterval
                      nextReview := now + graduatingInterval * 24 * 60 * 60 * 1000 }
        else
          { card with learningStep := step
                      nextReview := now + (learningSteps.getD step 0 : ℤ) * 60 * 1000 }
    | .easy =>
        { card with status := .review
                    interval := easyInterval
                    easeFactor := card.easeFactor + 15/100
                    nextReview := now + easyInterval * 24 * 60 * 60 * 1000 }
  if card.status ≠ .new then
    { card with status := if card.status = .review then .review else .learning }
  else card

/-- `SM2.processReview(card, quality)` (ai.js lines 545-580). -/
def processReview (now : ℤ) (card : SM2Card) (q : Quality) : SM2Card :=
  if q = .again then
    { card with lapses := card.lapses + 1
                status := .learning
                learningStep := 0
                easeFactor := max (card.easeFactor - 2/10) minEaseFactor
                nextReview := now + (learningSteps.getD 0 0 : ℤ) * 60 * 1000 }
  else
    let card := { card with repetitions := card.repetitions + 1 }
    let qq : ℚ := (q.val : ℚ) + 2
    let ef := card.easeFactor + (1/10 - (5 - qq) * (8/100 + (5 - qq) * (2/100)))
    let ef := max minEaseFactor (min maxEaseFactor ef)
    let card := { card with easeFactor := ef }
    let newInterval : ℤ :=
      if q = .hard then jsRound ((card.interval : ℚ) * (12/10))
      else if q = .good then jsRound ((card.interval : ℚ) * ef)
      else jsRound ((card.interval : ℚ) * ef * (13/10))
    let card := { card with interval := newInterval
                            nextReview := now + newInterval * 24 * 60 * 60 * 1000 }
    if 21 ≤ card.interval then { card with status := .learned } else card

/-- `SM2.processAnswer(card, quality)` (ai.js lines 494-502). -/
def processAnswer (now : ℤ) (card : SM2Card) (q : Quality) : SM2Card :=
  let card := { card with lastReview := some now }
  if card.status = .new ∨ card.status = .learning then processLearning now card q
  else processReview now card q

/-- Run a finite sequence of graded answers, each stamped with its own
clock reading, through `processAnswer`. -/
def runSM2 (card : SM2Card) (steps : List (ℤ × Quality)) : SM2Card :=
  steps.foldl (fun c p => processAnswer p.1 c p.2) card


/-! ## SM-2 helper lemmas -/

/-- Evaluate `jsRound` from two rational bounds. -/
lemma jsRound_eq {x : ℚ} {n : ℤ} (h₁ : (n : ℚ) ≤ x + 1/2) (h₂ : x + 1/2 < (n : ℚ) + 1) :
    jsRound x = n :=
  Int.floor_eq_iff.mpr ⟨h₁, h₂⟩

/-- Rounding a non-negative rational is non-negative. -/
lemma jsRound_nonneg {x : ℚ} (hx : 0 ≤ x) : 0 ≤ jsRound x :=
  Int.le_floor.mpr (by push_cast; linarith)

/-- Rounding `x * c` stays at or above 21 when `21 ≤ x` and `6/5 ≤ c`. -/
lemma jsRound_ge21 {x c : ℚ} (hx : (21 : ℚ) ≤ x) (hc : (6/5 : ℚ) ≤ c) :
    (21 : ℤ) ≤ jsRound (x * c) := by
  have hxc : (126/5 : ℚ) ≤ x * c := by nlinarith
  exact Int.le_floor.mpr (by push_cast; linarith)

/-- Unfolded form of `processAnswer` on a review- or learned-status card
answered `EASY`: `q = 5`, so the ease delta is exactly `+0.1`. -/
lemma processAnswer_review_easy (now : ℤ) (c : SM2Card)
    (hst : c.status = .review ∨ c.status = .learned)
    {ef : ℚ} (hef : max minEaseFactor (min maxEaseFactor (c.easeFactor + 1/10)) = ef)
    {n : ℤ} (hn : jsRound ((c.interval : ℚ) * ef * (13/10)) = n) :
    processAnswer now c .easy =
      { c with lastReview := some now
               repetitions := c.repetitions + 1
               easeFactor := ef
               interval := n
               nextReview := now + n * 24 * 60 * 60 * 1000
               status := if 21 ≤ n then .learned else c.status } := by
  have hd : ¬(c.status = .new ∨ c.status = .learning) := by
    rcases hst with h | h <;> simp [h]
  simp [processAnswer, processReview, hd, Quality.val]
  norm_num
  rw [hef, hn]
  split <;> rfl

/-- Unfolded form of `processAnswer` on a review- or learned-status card
answered `AGAIN` (the lapse branch). -/
lemma processAnswer_review_again (now : ℤ) (c : SM2Card)
    (hst : c.status = .review ∨ c.status = .learned) :
    processAnswer now c .again =
      { c with lastReview := some now
               lapses := c.lapses + 1
               status := .learning
               learningStep := 0
               easeFactor := max (c.easeFactor - 2/10) minEaseFactor
               nextReview := now + 60000 } := by
  have hd : ¬(c.status = .new ∨ c.status = .learning) := by
    rcases hst with h | h <;> simp [h]
  simp only [processAnswer, processReview, if_neg, hd, ite_false, if_false, reduceIte]
  norm_num [learningSteps]

/-- Invariant maintained by the scheduler along every run: the ease
factor stays within its configured bounds (with headroom `2.85` outside
the review phase, since the learning-phase `EASY` bonus `+0.15` is not
clamped), the interval is never negative, and a learned card's interval
is at least 21. -/
def CardInv (c : SM2Card) : Prop :=
  minEaseFactor ≤ c.easeFactor ∧ c.easeFactor ≤ maxEaseFactor ∧
  ((c.status = .new ∨ c.status = .learning) → c.easeFactor ≤ 57/20) ∧
  0 ≤ c.interval ∧ (c.status = .learned → 21 ≤ c.interval)

lemma createCard_inv (now : ℤ) (w : String) : CardInv (createCard now w) := by
  unfold CardInv createCard defaultEaseFactor minEaseFactor maxEaseFactor
  exact ⟨by norm_num, by norm_num, fun _ => by norm_num, le_refl 0, fun h => nomatch h⟩

lemma processLearning_inv (now : ℤ) (c : SM2Card) (q : Quality)
    (h : CardInv c) (hst : c.status = .new ∨ c.status = .learning) :
    CardInv (processLearning now c q) := by
  obtain ⟨h1, h2, h3, h4, h5⟩ := h
  have h1' : (13/10 : ℚ) ≤ c.easeFactor := h1
  have h2' : c.easeFactor ≤ 3 := h2
  have h3' : c.easeFactor ≤ 57/20 := h3 hst
  cases q
  case again =>
    rcases hst with hst | hst <;> simp [processLearning, CardInv, hst] <;>
      exact ⟨h1, h2, h3', h4⟩
  case hard =>
    rcases hst with hst | hst <;> simp [processLearning, CardInv, hst] <;>
      exact ⟨h1, h2, h3', h4⟩
  case good =>
    by_cases hg : (1 : ℕ) ≤ c.learningStep <;>
      rcases hst with hst | hst <;>
        simp [processLearning, CardInv, hst, hg, learningSteps, graduatingInterval] <;>
        first
          | exact ⟨h1, h2, h3', h4⟩
          | exact ⟨h1, h2, h4⟩
          | exact ⟨h1, h2⟩
  case easy =>
    rcases hst with hst | hst <;>
      simp [processLearning, CardInv, hst, easyInterval, minEaseFactor, maxEaseFactor] <;>
      constructor <;> linarith

lemma processReview_inv (now : ℤ) (c : SM2Card) (q : Quality)
    (h : CardInv c) (hst : c.status = .review ∨ c.status = .learned) :
    CardInv (processReview now c q) := by
  obtain ⟨h1, h2, h3, h4, h5⟩ := h
  have h1' : (13/10 : ℚ) ≤ c.easeFactor := h1
  have h2' : c.easeFactor ≤ 3 := h2
  by_cases hq : q = .again
  · subst hq
    simp only [processReview, if_pos rfl, reduceIte]
    refine ⟨le_max_right _ _, ?_, ?_, h4, ?_⟩
    · exact max_le (by unfold maxEaseFactor; linarith)
        (by unfold minEaseFactor maxEaseFactor; norm_num)
    · intro _
      exact max_le (by linarith) (by unfold minEaseFactor; norm_num)
    · intro hl
      simp at hl
  · have hd0 : ¬(c.status = .new ∨ c.status = .learning) := by
      rcases hst with h | h <;> simp [h]
    simp only [processReview, if_neg hq]
    set E : ℚ := max minEaseFactor (min maxEaseFactor (c.easeFactor +
      (1/10 - (5 - (((q.val : ℕ) : ℚ) + 2)) *
        (8/100 + (5 - (((q.val : ℕ) : ℚ) + 2)) * (2/100))))) with hE
    have hE1 : minEaseFactor ≤ E := le_max_left _ _
    have hE2 : E ≤ maxEaseFactor := by
      refine max_le ?_ (min_le_left _ _)
      unfold minEaseFactor maxEaseFactor
      norm_num
    have hE3 : (13/10 : ℚ) ≤ E := hE1
    have hE4 : E ≤ 3 := hE2
    have hci : (0 : ℚ) ≤ (c.interval : ℚ) := by exact_mod_cast h4
    set I : ℤ :=
      if q = .hard then jsRound ((c.interval : ℚ) * (12/10))
      else if q = .good then jsRound ((c.interval : ℚ) * E)
      else jsRound ((c.interval : ℚ) * E * (13/10)) with hI
    have hInn : 0 ≤ I := by
      rw [hI]
      split <;> [skip; split] <;>
        refine jsRound_nonneg (by positivity)
    have hIge : c.status = .learned → 21 ≤ I := by
      intro hl
      have h21 : (21 : ℚ) ≤ (c.interval : ℚ) := by exact_mod_cast h5 hl
      rw [hI]
      split
      · exact jsRound_ge21 h21 (by norm_num)
      · split
        · exact jsRound_ge21 h21 (by linarith)
        · have h21' : (21 : ℚ) ≤ (c.interval : ℚ) * E := by nlinarith
          exact jsRound_ge21 h21' (by linarith)
    by_cases h21I : 21 ≤ I
    · simp only [if_pos h21I, reduceIte]
      exact ⟨hE1, hE2, by simp, hInn, fun _ => h21I⟩
    · simp only [if_neg h21I, reduceIte]
      refine ⟨hE1, hE2, ?_, hInn, fun hl => absurd (hIge hl) h21I⟩
      intro hc
      exact absurd hc hd0

lemma processAnswer_inv (now : ℤ) (c : SM2Card) (q : Quality) (h : CardInv c) :
    CardInv (processAnswer now c q) := by
  unfold processAnswer
  by_cases hst : c.status = .new ∨ c.status = .learning
  · rw [if_pos hst]
    exact processLearning_inv now _ q h hst
  · rw [if_neg hst]
    have hst' : c.status = .review ∨ c.status = .learned := by
      cases hc : c.status <;> simp_all
    exact processReview_inv now _ q h hst'

lemma runSM2_inv (c : SM2Card) (steps : List (ℤ × Quality)) (h : CardInv c) :
    CardInv (runSM2 c steps) := by
  induction steps generalizing c with
  | nil => exact h
  | cons p t ih => exact ih _ (processAnswer_inv p.1 c p.2 h)


/-- A successful (non-`AGAIN`) review-phase answer either marks the card
learned or leaves its status unchanged. -/
lemma processReview_status (now : ℤ) (c : SM2Card) (q : Quality) (hq : q ≠ .again) :
    (processReview now c q).status = .learned ∨ (processReview now c q).status = c.status := by
  cases q with
  | again => exact absurd rfl hq
  | hard =>
      simp [processReview]
      split
      · exact Or.inl rfl
      · exact Or.inr rfl
  | good =>
      simp [processReview]
      split
      · exact Or.inl rfl
      · exact Or.inr rfl
  | easy =>
      simp [processReview]
      split
      · exact Or.inl rfl
      · exact Or.inr rfl

/-! ## Concrete SM-2 runs used by the claims -/

/-- Card after `EASY` on a fresh card (graduates with the easy interval). -/
def cardE1 : SM2Card := ⟨"w", .review, 53/20, 4, 0, 0, 0, 345600000, some 0⟩

/-- Card after a second `EASY` (first review-phase success). -/
def cardE2 : SM2Card := ⟨"w", .review, 11/4, 14, 1, 0, 0, 1209600000, some 0⟩

/-- Card after a third `EASY`: interval 52 ≥ 21, so the card is learned. -/
def cardE3 : SM2Card := ⟨"w", .learned, 57/20, 52, 2, 0, 0, 4492800000, some 0⟩

/-- Card after `AGAIN` on the learned card: the lapse branch keeps the
interval at 52 while moving the status back to `learning`. -/
def cardE4 : SM2Card := ⟨"w", .learning, 53/20, 52, 2, 1, 0, 60000, some 0⟩

lemma stepE1 : processAnswer 0 (createCard 0 "w") .easy = cardE1 := by
  simp [processAnswer, processLearning, createCard, cardE1, defaultEaseFactor, easyInterval]
  norm_num

lemma stepE2 : processAnswer 0 cardE1 .easy = cardE2 := by
  have hef : max minEaseFactor (min maxEaseFactor (cardE1.easeFactor + 1/10)) = 11/4 := by
    norm_num [cardE1, minEaseFactor, maxEaseFactor]
  have hn : jsRound ((cardE1.interval : ℚ) * (11/4) * (13/10)) = 14 := by
    apply jsRound_eq <;> norm_num [cardE1]
  rw [processAnswer_review_easy 0 cardE1 (Or.inl rfl) hef hn]
  norm_num [cardE1, cardE2]

lemma stepE3 : processAnswer 0 cardE2 .easy = cardE3 := by
  have hef : max minEaseFactor (min maxEaseFactor (cardE2.easeFactor + 1/10)) = 57/20 := by
    norm_num [cardE2, minEaseFactor, maxEaseFactor]
  have hn : jsRound ((cardE2.interval : ℚ) * (57/20) * (13/10)) = 52 := by
    apply jsRound_eq <;> norm_num [cardE2]
  rw [processAnswer_review_easy 0 cardE2 (Or.inl rfl) hef hn]
  norm_num [cardE2, cardE3]

lemma stepE4 : processAnswer 0 cardE3 .again = cardE4 := by
  rw [processAnswer_review_again 0 cardE3 (Or.inr rfl)]
  norm_num [cardE3, cardE4, minEaseFactor]

lemma run3_eq : runSM2 (createCard 0 "w") [(0, .easy), (0, .easy), (0, .easy)] = cardE3 := by
  simp [runSM2, stepE1, stepE2, stepE3]

lemma run4_eq :
    runSM2 (createCard 0 "w") [(0, .easy), (0, .easy), (0, .easy), (0, .again)] = cardE4 := by
  simp [runSM2, stepE1, stepE2, stepE3, stepE4]

/-- Card after `GOOD` on a fresh card: still `new`, one ladder step up. -/
def cardG1 : SM2Card := ⟨"w", .new, 5/2, 0, 0, 0, 1, 600000, some 0⟩

/-- Card after a second `GOOD`: graduates to review with interval 1. -/
def cardG2 : SM2Card := ⟨"w", .review, 5/2, 1, 0, 0, 2, 86400000, some 0⟩

/-- Card after `EASY` in review phase: ease 2.6, interval `round(1*2.6*1.3) = 3`. -/
def cardG3 : SM2Card := ⟨"w", .review, 13/5, 3, 1, 0, 2, 259200000, some 0⟩

lemma stepG1 : processAnswer 0 (createCard 0 "w") .good = cardG1 := by
  simp [processAnswer, processLearning, createCard, cardG1, defaultEaseFactor,
    learningSteps]

lemma stepG2 : processAnswer 0 cardG1 .good = cardG2 := by
  simp [processAnswer, processLearning, cardG1, cardG2, graduatingInterval, learningSteps]

lemma stepG3 : processAnswer 0 cardG2 .easy = cardG3 := by
  have hef : max minEaseFactor (min maxEaseFactor (cardG2.easeFactor + 1/10)) = 13/5 := by
    norm_num [cardG2, minEaseFactor, maxEaseFactor]
  have hn : jsRound ((cardG2.interval : ℚ) * (13/5) * (13/10)) = 3 := by
    apply jsRound_eq <;> norm_num [cardG2]
  rw [processAnswer_review_easy 0 cardG2 (Or.inl rfl) hef hn]
  norm_num [cardG2, cardG3]

lemma runG2_eq : runSM2 (createCard 0 "w") [(0, .good), (0, .good)] = cardG2 := by
  simp [runSM2, stepG1, stepG2]

lemma runG3_eq : runSM2 (createCard 0 "w") [(0, .good), (0, .good), (0, .easy)] = cardG3 := by
  simp [runSM2, stepG1, stepG2, stepG3]

/-! ## Claims C1, C2, C8, C10 -/

/-- **C2.** For every card created by `createCard` and every finite sequence of
quality ratings applied via `processAnswer`, the ease factor stays within
`[1.3, 3.0]` and the interval stays non-negative.  The step list is
universally quantified, so every intermediate state of a longer run is the
final state of one of its prefixes and is covered by this statement. -/
theorem sm2_ease_interval_bounds (now : ℤ) (w : String) (steps : List (ℤ × Quality)) :
    (13/10 : ℚ) ≤ (runSM2 (createCard now w) steps).easeFactor ∧
    (runSM2 (createCard now w) steps).easeFactor ≤ 3 ∧
    0 ≤ (runSM2 (createCard now w) steps).interval := by
  obtain ⟨a, b, _, d, _⟩ := runSM2_inv _ steps (createCard_inv now w)
  exact ⟨a, b, d⟩

/-- **C1, counterexample.** The claimed equivalence fails in the
interval-to-status direction: a reachable card (created fresh, answered
`EASY, EASY, EASY, AGAIN`) has interval 52 ≥ 21 but status `learning`,
because the review-phase lapse branch changes the status without touching
the interval. -/
theorem learned_iff_interval_counterexample :
    21 ≤ (runSM2 (createCard 0 "w")
        [(0, .easy), (0, .easy), (0, .easy), (0, .again)]).interval ∧
    (runSM2 (createCard 0 "w")
        [(0, .easy), (0, .easy), (0, .easy), (0, .again)]).status ≠ .learned := by
  rw [run4_eq]
  exact ⟨by norm_num [cardE4], by simp [cardE4]⟩

/-- **C1, amended.** Only the forward direction holds for reachable cards:
after any sequence of `processAnswer` calls starting from `createCard`, a
card whose status is `learned` has interval ≥ 21.  The converse is false
(see the counterexample): after a lapse from `learned`, the interval stays
≥ 21 while the status is `learning`. -/
theorem learned_status_implies_interval_ge21 (now : ℤ) (w : String)
    (steps : List (ℤ × Quality))
    (h : (runSM2 (createCard now w) steps).status = .learned) :
    21 ≤ (runSM2 (createCard now w) steps).interval :=
  (runSM2_inv _ steps (createCard_inv now w)).2.2.2.2 h

/-- Witness for the amended C1: the run `EASY, EASY, EASY` ends with
status `learned`, and the theorem then gives interval ≥ 21. -/
theorem learned_status_implies_interval_ge21_witness :
    21 ≤ (runSM2 (createCard 0 "w") [(0, .easy), (0, .easy), (0, .easy)]).interval :=
  learned_status_implies_interval_ge21 0 "w" _ (by rw [run3_eq]; rfl)

/-- **C8.** A fresh card answered `GOOD, GOOD, EASY`: after the two `GOOD`s
the card has status `review` and interval 1; the `EASY` in review phase
raises the ease factor to 2.6 and sets the interval to
`round(1 * 2.6 * 1.3) = 3` days. -/
theorem good_good_easy_scenario :
    (runSM2 (createCard 0 "w") [(0, .good), (0, .good)]).status = .review ∧
    (runSM2 (createCard 0 "w") [(0, .good), (0, .good)]).interval = 1 ∧
    (runSM2 (createCard 0 "w") [(0, .good), (0, .good), (0, .easy)]).easeFactor = 13/5 ∧
    (runSM2 (createCard 0 "w") [(0, .good), (0, .good), (0, .easy)]).interval = 3 := by
  rw [runG2_eq, runG3_eq]
  exact ⟨rfl, rfl, rfl, rfl⟩

/-- **C10.** A `new` card answered `AGAIN` or `HARD`, or `GOOD` while the
incremented ladder step is still below the ladder length, keeps status
`new` (never `learning`); and the `learning` status is only ever entered
from the review-phase `AGAIN` (lapse) branch. -/
theorem new_card_stays_new_and_learning_only_from_lapse
    (now : ℤ) (c : SM2Card) (q : Quality) :
    (c.status = .new →
      (q = .again ∨ q = .hard ∨ (q = .good ∧ c.learningStep + 1 < learningSteps.length)) →
      (processAnswer now c q).status = .new) ∧
    ((processAnswer now c q).status = .learning →
      c.status = .learning ∨ ((c.status = .review ∨ c.status = .learned) ∧ q = .again)) := by
  constructor
  · intro hnew hq
    rcases hq with rfl | rfl | ⟨rfl, hstep⟩
    · simp [processAnswer, processLearning, hnew]
    · simp [processAnswer, processLearning, hnew]
    · have hg : ¬(learningSteps.length ≤ c.learningStep + 1) := by omega
      simp [processAnswer, processLearning, hnew, hg]
  · intro hl
    cases hcs : c.status
    case «new» =>
      exfalso
      cases q <;> by_cases hg : learningSteps.length ≤ c.learningStep + 1 <;>
        simp_all [processAnswer, processLearning, apply_ite]
    case learning => exact Or.inl rfl
    case review =>
      refine Or.inr ⟨Or.inl rfl, ?_⟩
      by_contra hq
      have hpa : processAnswer now c q =
          processReview now { c with lastReview := some now } q := by
        simp [processAnswer, hcs]
      rcases processReview_status now { c with lastReview := some now } q hq with h' | h'
      · rw [hpa, h'] at hl
        exact nomatch hl
      · rw [hpa, h'] at hl
        simp [hcs] at hl
    case learned =>
      refine Or.inr ⟨Or.inr rfl, ?_⟩
      by_contra hq
      have hpa : processAnswer now c q =
          processReview now { c with lastReview := some now } q := by
        simp [processAnswer, hcs]
      rcases processReview_status now { c with lastReview := some now } q hq with h' | h'
      · rw [hpa, h'] at hl
        exact nomatch hl
      · rw [hpa, h'] at hl
        simp [hcs] at hl

/-- Witness for C10: a fresh card answered `AGAIN` keeps status `new`. -/
theorem new_card_stays_new_witness :
    (processAnswer 0 (createCard 0 "w") .again).status = .new :=
  (new_card_stays_new_and_learning_only_from_lapse 0 (createCard 0 "w") .again).1
    rfl (Or.inl rfl)


/-! ## Grammar 7-phase acquisition state machine (src/unnamed/part_006) -/

/-- The fixed phase order `discover, understand, notice, practice,
produce, input_flood, review` (`Grammar.PHASE_ORDER`). -/
inductive Phase where
  | discover : Phase
  | understand : Phase
  | notice : Phase
  | practice : Phase
  | produce : Phase
  | inputFlood : Phase
  | review : Phase
deriving DecidableEq, Repr

/-- Position of a phase in `Grammar.PHASE_ORDER`. -/
def Phase.idx : Phase → ℕ
  | .discover => 0
  | .understand => 1
  | .notice => 2
  | .practice => 3
  | .produce => 4
  | .inputFlood => 5
  | .review => 6

/-- The `phases.practice` record `{completed, score, attempts}`. -/
structure PracticeData where
  completed : Bool
  score : ℚ
  attempts : ℕ
deriving DecidableEq, Repr

/-- The `phases.produce` record; submissions are counted, their payloads
are irrelevant to progression. -/
structure ProduceData where
  completed : Bool
  submissions : ℕ
deriving DecidableEq, Repr

/-- The `phases.review` record `{accuracy, lastReview}` (the card list is
irrelevant to progression). -/
structure ReviewData where
  accuracy : ℚ
  lastReview : Option ℤ
deriving DecidableEq, Repr

/-- The `phases` map of a `TopicProgress` record. -/
structure Phases where
  discover : Bool
  understand : Bool
  notice : Bool
  practice : PracticeData
  produce : ProduceData
  inputFlood : ℕ
  review : ReviewData
deriving DecidableEq, Repr

/-- One `TopicProgress` record (`Grammar.getTopicProgress` shape). -/
structure TopicProgress where
  phases : Phases
  acquired : Bool
  startedAt : Option ℤ
  completedAt : Option ℤ
deriving DecidableEq, Repr

/-- `Grammar.determineCurrentPhase(progress)` (part_006 lines 210-218). -/
def determineCurrentPhase (p : TopicProgress) : Phase :=
  if ¬p.phases.discover then .discover
  else if ¬p.phases.understand then .understand
  else if ¬p.phases.notice then .notice
  else if ¬p.phases.practice.completed then .practice
  else if ¬p.phases.produce.completed then .produce
  else if p.phases.inputFlood < 5 then .inputFlood
  else .review

/-- `Grammar.isTopicCompleted(progress)` (part_006 lines 410-419). -/
def isTopicCompleted (p : TopicProgress) : Prop :=
  p.phases.discover ∧ p.phases.understand ∧ p.phases.notice ∧
  p.phases.practice.completed ∧ p.phases.produce.completed ∧
  5 ≤ p.phases.inputFlood

instance (p : TopicProgress) : Decidable (isTopicCompleted p) := by
  unfold isTopicCompleted; infer_instance

/-- Payload of a `completePhase` call.  `score` is `data.score` for a
practice submission, `accuracy` is `data.accuracy` for a review session
(`0` models a missing/zero field, which is falsy in JS). -/
structure PhaseData where
  score : ℚ
  accuracy : ℚ
deriving DecidableEq, Repr

/-- `Grammar.completePhase(phase, data)` (part_006 lines 343-405): the
per-phase mutation, then the completion check. -/
def completePhase (now : ℤ) (p : TopicProgress) (phase : Phase) (data : PhaseData) :
    TopicProgress :=
  let p :=
    match phase with
    | .discover => { p with phases := { p.phases with discover := true } }
    | .understand => { p with phases := { p.phases with understand := true } }
    | .notice => { p with phases := { p.phases with notice := true } }
    | .practice =>
        { p with phases := { p.phases with practice :=
            { completed := decide ((7:ℚ)/10 ≤ data.score)
              score := data.score
              attempts := p.phases.practice.attempts + 1 } } }
    | .produce =>
        { p with phases := { p.phases with produce :=
            { completed := true
              submissions := p.phases.produce.submissions + 1 } } }
    | .inputFlood =>
        { p with phases := { p.phases with inputFlood := p.phases.inputFlood + 1 } }
    | .review =>
        { p with phases := { p.phases with review :=
            { accuracy := if data.accuracy = 0 then p.phases.review.accuracy
                          else data.accuracy
              lastReview := some now } } }
  if isTopicCompleted p then
    { p with completedAt := some now
             acquired := decide ((8:ℚ)/10 ≤ p.phases.review.accuracy) }
  else p

/-- `determineCurrentPhase` as a function of the six satisfaction bits it
reads (the `inputFlood` counter enters only through `inputFlood < 5`). -/
def determineBits (d u n pr pd fl : Bool) : Phase :=
  if ¬d then .discover
  else if ¬u then .understand
  else if ¬n then .notice
  else if ¬pr then .practice
  else if ¬pd then .produce
  else if ¬fl then .inputFlood
  else .review

lemma determineCurrentPhase_eq_bits (p : TopicProgress) :
    determineCurrentPhase p =
      determineBits p.phases.discover p.phases.understand p.phases.notice
        p.phases.practice.completed p.phases.produce.completed
        (decide (5 ≤ p.phases.inputFlood)) := by
  unfold determineCurrentPhase determineBits
  have h : (¬decide (5 ≤ p.phases.inputFlood) = true) ↔ p.phases.inputFlood < 5 := by
    simp
  split_ifs <;> simp_all

lemma determineBits_mono (d u n pr pd fl d' u' n' pr' pd' fl' : Bool)
    (hd : d ≤ d') (hu : u ≤ u') (hn : n ≤ n') (hpr : pr ≤ pr')
    (hpd : pd ≤ pd') (hfl : fl ≤ fl') :
    (determineBits d u n pr pd fl).idx ≤ (determineBits d' u' n' pr' pd' fl').idx := by
  revert hd hu hn hpr hpd hfl
  revert d u n pr pd fl d' u' n' pr' pd' fl'
  decide


/-- A topic progress with the first three phases and practice complete;
the derived phase is `produce`. -/
def progPractDone : TopicProgress :=
  { phases :=
      { discover := true
        understand := true
        notice := true
        practice := ⟨true, 8/10, 1⟩
        produce := ⟨false, 0⟩
        inputFlood := 0
        review := ⟨0, none⟩ }
    acquired := false
    startedAt := some 0
    completedAt := none }

/-- Resubmitting practice with score 0 resets `practice.completed`. -/
def progPractFailed : TopicProgress :=
  { phases :=
      { discover := true
        understand := true
        notice := true
        practice := ⟨false, 0, 2⟩
        produce := ⟨false, 0⟩
        inputFlood := 0
        review := ⟨0, none⟩ }
    acquired := false
    startedAt := some 0
    completedAt := none }

lemma completePhase_practice_fail_eq :
    completePhase 0 progPractDone .practice ⟨0, 0⟩ = progPractFailed := by
  have hd : decide ((7:ℚ)/10 ≤ (0:ℚ)) = false := by
    simp only [decide_eq_false_iff_not]
    norm_num
  have hnc : ¬isTopicCompleted
      { progPractDone with phases := { progPractDone.phases with practice :=
          { completed := decide ((7:ℚ)/10 ≤ (0:ℚ)), score := 0,
            attempts := progPractDone.phases.practice.attempts + 1 } } } := by
    simp [isTopicCompleted, progPractDone, hd]
  unfold completePhase
  rw [if_neg hnc]
  simp [progPractDone, progPractFailed, hd]

/-- **C3, counterexample.** On a reachable progress state whose practice
phase is completed (derived phase `produce`), a further
`completePhase('practice', {score: 0})` call resets `practice.completed`
and the derived phase moves backward from `produce` to `practice`. -/
theorem completePhase_backward_counterexample :
    (determineCurrentPhase (completePhase 0 progPractDone .practice ⟨0, 0⟩)).idx <
      (determineCurrentPhase progPractDone).idx := by
  rw [completePhase_practice_fail_eq]
  have h1 : determineCurrentPhase progPractFailed = .practice := by
    simp [determineCurrentPhase, progPractFailed]
  have h2 : determineCurrentPhase progPractDone = .produce := by
    simp [determineCurrentPhase, progPractDone]
  rw [h1, h2]
  norm_num [Phase.idx]

/-- **C3, amended.** A single `completePhase(phase, data)` call never moves
the derived current phase backward, except in the one case exhibited by the
counterexample: a practice submission with score < 0.7 on a state whose
practice phase was already completed.  Under the hypothesis that this case
does not apply, the derived phase index is monotone. -/
theorem completePhase_no_backward (now : ℤ) (p : TopicProgress) (phase : Phase)
    (data : PhaseData)
    (h : phase = .practice → p.phases.practice.completed = true → (7:ℚ)/10 ≤ data.score) :
    (determineCurrentPhase p).idx ≤
      (determineCurrentPhase (completePhase now p phase data)).idx := by
  have hphases : ∀ p' : TopicProgress,
      (if isTopicCompleted p' then
        { p' with completedAt := some now
                  acquired := decide ((8:ℚ)/10 ≤ p'.phases.review.accuracy) }
       else p').phases = p'.phases := by
    intro p'
    split <;> rfl
  rw [determineCurrentPhase_eq_bits, determineCurrentPhase_eq_bits]
  cases phase with
  | discover =>
      rw [show (completePhase now p .discover data).phases =
          { p.phases with discover := true } from hphases _]
      exact determineBits_mono _ _ _ _ _ _ _ _ _ _ _ _
        (Bool.le_true _) (le_refl _) (le_refl _) (le_refl _) (le_refl _) (le_refl _)
  | understand =>
      rw [show (completePhase now p .understand data).phases =
          { p.phases with understand := true } from hphases _]
      exact determineBits_mono _ _ _ _ _ _ _ _ _ _ _ _
        (le_refl _) (Bool.le_true _) (le_refl _) (le_refl _) (le_refl _) (le_refl _)
  | notice =>
      rw [show (completePhase now p .notice data).phases =
          { p.phases with notice := true } from hphases _]
      exact determineBits_mono _ _ _ _ _ _ _ _ _ _ _ _
        (le_refl _) (le_refl _) (Bool.le_true _) (le_refl _) (le_refl _) (le_refl _)
  | practice =>
      rw [show (completePhase now p .practice data).phases =
          { p.phases with practice :=
            { completed := decide ((7:ℚ)/10 ≤ data.score)
              score := data.score
              attempts := p.phases.practice.attempts + 1 } } from hphases _]
      refine determineBits_mono _ _ _ _ _ _ _ _ _ _ _ _
        (le_refl _) (le_refl _) (le_refl _) ?_ (le_refl _) (le_refl _)
      cases hc : p.phases.practice.completed
      · exact Bool.false_le _
      · have := h rfl hc
        simp [this]
  | produce =>
      rw [show (completePhase now p .produce data).phases =
          { p.phases with produce :=
            { completed := true
              submissions := p.phases.produce.submissions + 1 } } from hphases _]
      exact determineBits_mono _ _ _ _ _ _ _ _ _ _ _ _
        (le_refl _) (le_refl _) (le_refl _) (le_refl _) (Bool.le_true _) (le_refl _)
  | inputFlood =>
      rw [show (completePhase now p .inputFlood data).phases =
          { p.phases with inputFlood := p.phases.inputFlood + 1 } from hphases _]
      refine determineBits_mono _ _ _ _ _ _ _ _ _ _ _ _
        (le_refl _) (le_refl _) (le_refl _) (le_refl _) (le_refl _) ?_
      cases hc : decide (5 ≤ p.phases.inputFlood)
      · exact Bool.false_le _
      · have h5 : 5 ≤ p.phases.inputFlood := by simpa using hc
        have hdec : decide (5 ≤ p.phases.inputFlood + 1) = true := by
          simpa using Nat.le_succ_of_le h5
        rw [hdec]
  | review =>
      rw [show (completePhase now p .review data).phases =
          { p.phases with review :=
            { accuracy := if data.accuracy = 0 then p.phases.review.accuracy
                          else data.accuracy
              lastReview := some now } } from hphases _]

/-- Witness for the amended C3: completing `produce` on `progPractDone`
(whose derived phase is `produce`) does not move the phase backward. -/
theorem completePhase_no_backward_witness :
    (determineCurrentPhase progPractDone).idx ≤
      (determineCurrentPhase (completePhase 0 progPractDone .produce ⟨0, 0⟩)).idx :=
  completePhase_no_backward 0 progPractDone .produce ⟨0, 0⟩ (fun h => nomatch h)


/-! ## Adaptive placement test (src/js/placementTest.js) -/

/-- CEFR levels, in the fixed order `['A1','A2','B1','B2','C1']`. -/
inductive Level where
  | A1 : Level
  | A2 : Level
  | B1 : Level
  | B2 : Level
  | C1 : Level
deriving DecidableEq, Repr, Fintype

/-- Index of a level in the `levels` array. -/
def Level.idx : Level → ℕ
  | .A1 => 0
  | .A2 => 1
  | .B1 => 2
  | .B2 => 3
  | .C1 => 4

/-- The `levels` array used throughout `placementTest.js`. -/
def levelsAsc : List Level := [.A1, .A2, .B1, .B2, .C1]

/-- The four test sections, in `CONFIG.sections` rotation order. -/
inductive TestSection where
  | grammar : TestSection
  | vocabulary : TestSection
  | reading : TestSection
  | listeningSimulation : TestSection
deriving DecidableEq, Repr, Fintype

/-- `CONFIG.sections`. -/
def sectionsOrder : List TestSection :=
  [.grammar, .vocabulary, .reading, .listeningSimulation]

/-- `CONFIG.minQuestions = 50`. -/
def minQuestions : ℕ := 50

/-- `CONFIG.maxQuestions = 70`. -/
def maxQuestions : ℕ := 70

/-- `CONFIG.stabilityWindow = 10`. -/
def stabilityWindow : ℕ := 10

/-- `CONFIG.adaptiveThreshold = 0.7`. -/
def adaptiveThreshold : ℚ := 7/10

/-- `CONFIG.moveDownThreshold = 0.4`. -/
def moveDownThreshold : ℚ := 4/10

/-- One entry of `testSession.answers`: the fields the engine reads back
(question level, section, correctness); identifiers and raw answer
indices are never consulted by the adaptation or scoring logic. -/
structure PAnswer where
  level : Level
  sec : TestSection
  correct : Bool
deriving DecidableEq, Repr

/-- The mutable placement-session state (`this.testSession`), restricted
to the fields the selection, adaptation and termination logic reads. -/
structure PTState where
  currentLevel : Level
  questionCount : ℕ
  answers : List PAnswer
  levelHistory : List (Level × Bool)
  byLevel : TestSection → Level → ℕ × ℕ
  usedIds : List (Level × TestSection × ℕ)

/-- JavaScript `array.slice(-n)`: the last `n` elements (all of them when
the array is shorter). -/
def lastN (n : ℕ) (l : List α) : List α := l.drop (l.length - n)

/-- `PlacementTest.shouldEndTest()` (placementTest.js lines 365-382). -/
def shouldEndTest (s : PTState) : Bool :=
  if s.questionCount < minQuestions then false
  else
    let recentLevels := lastN stabilityWindow s.levelHistory
    if recentLevels.length < stabilityWindow then false
    else decide ((recentLevels.map Prod.fst).dedup.length = 1)

/-- The end test performed at the top of `getNextQuestion` (line 168):
`questionCount >= CONFIG.maxQuestions || this.shouldEndTest()`. -/
def endCheck (s : PTState) : Bool :=
  decide (maxQuestions ≤ s.questionCount) || shouldEndTest s

/-- A list deduplicates to a single element exactly when it is nonempty
and constant. -/
lemma dedup_length_eq_one_iff {α : Type} [DecidableEq α] (l : List α) :
    l.dedup.length = 1 ↔ l ≠ [] ∧ ∃ a, ∀ x ∈ l, x = a := by
  constructor
  · intro h
    obtain ⟨a, ha⟩ := List.length_eq_one.mp h
    refine ⟨?_, a, ?_⟩
    · rintro rfl
      simp at ha
    · intro x hx
      have hxd := List.mem_dedup.mpr hx
      rw [ha] at hxd
      simpa using hxd
  · rintro ⟨hne, a, hall⟩
    have hmem : a ∈ l.dedup := by
      obtain ⟨y, hy⟩ := List.exists_mem_of_ne_nil l hne
      exact List.mem_dedup.mpr (hall y hy ▸ hy)
    have hsub : ∀ x ∈ l.dedup, x = a := fun x hx => hall x (List.mem_dedup.mp hx)
    have hnd := l.nodup_dedup
    cases hd : l.dedup with
    | nil => rw [hd] at hmem; simp at hmem
    | cons x t =>
      cases t with
      | nil => simp [hd]
      | cons y t' =>
        exfalso
        rw [hd] at hsub hnd
        have hx : x = a := hsub x (by simp)
        have hy : y = a := hsub y (by simp)
        exact (List.nodup_cons.mp hnd).1 (by simp [hx, hy])

/-- **C5.** The placement test ends exactly when 70 questions have been
asked, or at least 50 have been asked and the last 10 answered questions
(which must exist) all carry the same level; otherwise it continues. -/
theorem placement_end_condition (s : PTState) :
    endCheck s = true ↔
      maxQuestions ≤ s.questionCount ∨
      (minQuestions ≤ s.questionCount ∧
        stabilityWindow ≤ s.levelHistory.length ∧
        ∃ l : Level, ∀ x ∈ lastN stabilityWindow s.levelHistory, x.1 = l) := by
  have hreclen : (lastN stabilityWindow s.levelHistory).length =
      s.levelHistory.length - (s.levelHistory.length - stabilityWindow) :=
    List.length_drop _ _
  unfold endCheck shouldEndTest
  rcases Nat.lt_or_ge s.questionCount minQuestions with hlt | hge
  · rw [if_pos hlt]
    simp only [Bool.or_false, decide_eq_true_eq]
    constructor
    · exact Or.inl
    · rintro (h | ⟨h, _⟩)
      · exact h
      · omega
  · rw [if_neg (by omega)]
    rcases Nat.lt_or_ge (lastN stabilityWindow s.levelHistory).length stabilityWindow
      with hrl | hrg
    · rw [if_pos hrl]
      simp only [Bool.or_false, decide_eq_true_eq]
      constructor
      · exact Or.inl
      · rintro (h | ⟨_, h10, _⟩)
        · exact h
        · exfalso
          unfold stabilityWindow at *
          omega
    · rw [if_neg (by omega)]
      simp only [Bool.or_eq_true, decide_eq_true_eq]
      constructor
      · rintro (h70 | hded)
        · exact Or.inl h70
        · obtain ⟨hne, a, hall⟩ := (dedup_length_eq_one_iff _).mp hded
          refine Or.inr ⟨hge, by unfold stabilityWindow at *; omega, a, ?_⟩
          exact fun x hx => hall x.1 (List.mem_map_of_mem Prod.fst hx)
      · rintro (h70 | ⟨_, hlen, l, hall⟩)
        · exact Or.inl h70
        · right
          apply (dedup_length_eq_one_iff _).mpr
          have hlen10 : (lastN stabilityWindow s.levelHistory).length = stabilityWindow := by
            unfold stabilityWindow at *
            omega
          refine ⟨?_, l, ?_⟩
          · rw [Ne, List.map_eq_nil_iff]
            intro hnil
            rw [hnil] at hlen10
            simp [stabilityWindow] at hlen10
          · intro x hx
            obtain ⟨p, hp, rfl⟩ := List.mem_map.mp hx
            exact hall p hp


/-- The `currentLevelAnswers` list inside `adaptLevel`: among the last
five answers, those at the session's current level. -/
def currentLevelAnswers (s : PTState) : List PAnswer :=
  (lastN 5 s.answers).filter (fun a => a.level = s.currentLevel)

/-- The `recentAccuracy` value inside `adaptLevel`. -/
def recentAccuracy (s : PTState) : ℚ :=
  (((currentLevelAnswers s).filter (fun a => a.correct)).length : ℚ) /
    ((currentLevelAnswers s).length : ℚ)

/-- `PlacementTest.adaptLevel()` (placementTest.js lines 334-360); the
local variables of the JS function are the named definitions above. -/
def adaptLevel (s : PTState) : PTState :=
  if (lastN 5 s.answers).length < 5 then s
  else if (currentLevelAnswers s).length < 3 then s
  else if adaptiveThreshold ≤ recentAccuracy s then
    (if s.currentLevel.idx < levelsAsc.length - 1 then
      { s with currentLevel := levelsAsc.getD (s.currentLevel.idx + 1) s.currentLevel }
     else s)
  else if recentAccuracy s < moveDownThreshold then
    (if 0 < s.currentLevel.idx then
      { s with currentLevel := levelsAsc.getD (s.currentLevel.idx - 1) s.currentLevel }
     else s)
  else s

/-- The mutation part of `PlacementTest.submitAnswer` (placementTest.js
lines 298-319): record the answer, update the per-section/per-level score
accumulators, append to the level history. -/
def pushAnswer (s : PTState) (a : PAnswer) : PTState :=
  { s with
    answers := s.answers ++ [a]
    byLevel := fun sec l =>
      if sec = a.sec ∧ l = a.level then
        ((s.byLevel sec l).1 + (if a.correct then 1 else 0), (s.byLevel sec l).2 + 1)
      else s.byLevel sec l
    levelHistory := s.levelHistory ++ [(a.level, a.correct)] }

/-- `PlacementTest.submitAnswer(answerIndex)` (placementTest.js lines
289-329), abstracted over the current question's level and section and
the correctness of the submitted answer: record everything, then run the
adaptation rule (line 322). -/
def submitAnswer (s : PTState) (a : PAnswer) : PTState :=
  adaptLevel (pushAnswer s a)

/-- **C6.** After each submitted answer, once at least five answers exist
and at least three of the most recent five are at the current level, their
accuracy drives the level: ≥ 0.7 moves the level up one step unless it is
already `C1`, < 0.4 moves it down one step unless it is already `A1`, and
anything in between leaves it unchanged; with fewer than five recent
answers or fewer than three at the current level, the level never moves. -/
theorem placement_level_adaptation (s : PTState) (a : PAnswer) :
    (5 ≤ (lastN 5 (pushAnswer s a).answers).length →
      3 ≤ (currentLevelAnswers (pushAnswer s a)).length →
      ((adaptiveThreshold ≤ recentAccuracy (pushAnswer s a) →
          (submitAnswer s a).currentLevel =
            (if s.currentLevel = .C1 then s.currentLevel
             else levelsAsc.getD (s.currentLevel.idx + 1) s.currentLevel)) ∧
       (recentAccuracy (pushAnswer s a) < moveDownThreshold →
          (submitAnswer s a).currentLevel =
            (if s.currentLevel = .A1 then s.currentLevel
             else levelsAsc.getD (s.currentLevel.idx - 1) s.currentLevel)) ∧
       (moveDownThreshold ≤ recentAccuracy (pushAnswer s a) →
        recentAccuracy (pushAnswer s a) < adaptiveThreshold →
          (submitAnswer s a).currentLevel = s.currentLevel))) ∧
    ((lastN 5 (pushAnswer s a).answers).length < 5 ∨
        (currentLevelAnswers (pushAnswer s a)).length < 3 →
      (submitAnswer s a).currentLevel = s.currentLevel) := by
  have htop : ∀ l : Level, l.idx < levelsAsc.length - 1 ↔ l ≠ .C1 := by
    intro l
    cases l <;> simp [Level.idx, levelsAsc]
  have hbot : ∀ l : Level, 0 < l.idx ↔ l ≠ .A1 := by
    intro l
    cases l <;> simp [Level.idx, levelsAsc]
  have hcur : (pushAnswer s a).currentLevel = s.currentLevel := rfl
  constructor
  · intro h5 h3
    unfold submitAnswer adaptLevel
    rw [if_neg (not_lt.mpr h5), if_neg (not_lt.mpr h3)]
    refine ⟨?_, ?_, ?_⟩
    · intro hup
      rw [if_pos hup]
      by_cases h2 : (pushAnswer s a).currentLevel.idx < levelsAsc.length - 1
      · rw [if_pos h2]
        rw [hcur] at h2
        rw [if_neg ((htop _).mp h2)]
        rfl
      · rw [if_neg h2]
        rw [hcur] at h2
        rw [if_pos (not_not.mp (fun hne => h2 ((htop _).mpr hne)))]
        rfl
    · intro hdown
      have hnup : ¬adaptiveThreshold ≤ recentAccuracy (pushAnswer s a) := by
        unfold adaptiveThreshold moveDownThreshold at *
        push_neg
        linarith
      rw [if_neg hnup, if_pos hdown]
      by_cases h2 : 0 < (pushAnswer s a).currentLevel.idx
      · rw [if_pos h2]
        rw [hcur] at h2
        rw [if_neg ((hbot _).mp h2)]
        rfl
      · rw [if_neg h2]
        rw [hcur] at h2
        rw [if_pos (not_not.mp (fun hne => h2 ((hbot _).mpr hne)))]
        rfl
    · intro hmid1 hmid2
      rw [if_neg (not_le.mpr hmid2), if_neg (not_lt.mpr hmid1)]
      rfl
  · intro hsmall
    unfold submitAnswer adaptLevel
    rcases hsmall with hs | hs
    · rw [if_pos hs]
      rfl
    · by_cases h5 : (lastN 5 (pushAnswer s a).answers).length < 5
      · rw [if_pos h5]
        rfl
      · rw [if_neg h5, if_pos hs]
        rfl


/-- A session that has already recorded four B1 answers (three correct). -/
def ptW : PTState :=
  { currentLevel := .B1
    questionCount := 5
    answers :=
      [⟨.B1, .grammar, true⟩, ⟨.B1, .vocabulary, true⟩,
       ⟨.B1, .reading, true⟩, ⟨.B1, .listeningSimulation, false⟩]
    levelHistory := []
    byLevel := fun _ _ => (0, 0)
    usedIds := [] }

/-- Witness for C6: a fifth correct B1 answer gives accuracy 4/5 ≥ 0.7 on
five current-level answers, and the level moves up from B1 to B2. -/
theorem placement_level_adaptation_witness :
    (submitAnswer ptW ⟨.B1, .grammar, true⟩).currentLevel = .B2 := by
  have h5 : 5 ≤ (lastN 5 (pushAnswer ptW ⟨.B1, .grammar, true⟩).answers).length := by
    decide
  have h3 : 3 ≤ (currentLevelAnswers (pushAnswer ptW ⟨.B1, .grammar, true⟩)).length := by
    decide
  have hacc : adaptiveThreshold ≤ recentAccuracy (pushAnswer ptW ⟨.B1, .grammar, true⟩) := by
    have hcl : currentLevelAnswers (pushAnswer ptW ⟨.B1, .grammar, true⟩) =
        [⟨.B1, .grammar, true⟩, ⟨.B1, .vocabulary, true⟩,
         ⟨.B1, .reading, true⟩, ⟨.B1, .listeningSimulation, false⟩,
         ⟨.B1, .grammar, true⟩] := by decide
    rw [recentAccuracy, hcl]
    norm_num [adaptiveThreshold]
  have h := (((placement_level_adaptation ptW ⟨.B1, .grammar, true⟩).1 h5 h3).1) hacc
  rw [h]
  rfl

/-! ## Placement final scoring (C7) -/

/-- The qualification test inside the `determineSectionLevel` loop
(placementTest.js lines 458-464): at least two questions attempted at the
level, with accuracy at least 0.6. -/
def qualifies (byLevel : Level → ℕ × ℕ) (l : Level) : Bool :=
  decide (2 ≤ (byLevel l).2 ∧ (6:ℚ)/10 ≤ ((byLevel l).1 : ℚ) / ((byLevel l).2 : ℚ))

/-- `PlacementTest.determineSectionLevel(byLevel)` (placementTest.js lines
453-468): walk the levels in ascending order, remembering the last
qualifying one, starting from `'A1'`. -/
def determineSectionLevel (byLevel : Level → ℕ × ℕ) : Level :=
  levelsAsc.foldl
    (fun determinedLevel l => if qualifies byLevel l then l else determinedLevel) .A1

/-- The same ascending fold for an abstract qualification predicate. -/
def pickLastSatisfying (q : Level → Bool) : Level :=
  levelsAsc.foldl (fun determinedLevel l => if q l then l else determinedLevel) .A1

lemma pickLastSatisfying_spec (q : Level → Bool) :
    (∀ l, q l = true → l.idx ≤ (pickLastSatisfying q).idx) ∧
    (q (pickLastSatisfying q) = true ∨
      (pickLastSatisfying q = .A1 ∧ ∀ l, q l = false)) := by
  revert q
  decide

/-- `PlacementTest.calculateOverallLevel(results)` (placementTest.js lines
473-512), applied to the list of per-section levels: strict-majority scan
in ascending level order, then the weak-section pull-down. -/
def calculateOverallLevel (sectionLevels : List Level) : Level :=
  match sectionLevels with
  | [] => .A1
  | x :: t =>
    let ls := x :: t
    let result := (levelsAsc.foldl
        (fun p l => if p.1 < ls.count l then (ls.count l, l) else p) ((0 : ℕ), Level.A1)).2
    let minLevel := t.foldl (fun m l => if l.idx < m.idx then l else m) x
    if 2 ≤ (result.idx : ℤ) - (minLevel.idx : ℤ) then
      levelsAsc.getD (result.idx - 1) .A1
    else result

/-- Modelled from the spec's words, for comparison with
`calculateOverallLevel`: the overall level is the most frequent
per-section level with ties broken toward the lower level (the least
level attaining the maximal count), lowered by one further level whenever
the weakest (minimal) section level is at least two levels below it. -/
def specOverallLevel (sectionLevels : List Level) : Level :=
  match sectionLevels with
  | [] => .A1
  | x :: t =>
    let ls := x :: t
    let mostFrequent := (levelsAsc.find? (fun l =>
        decide (∀ l' : Level, ls.count l' ≤ ls.count l))).getD .A1
    let weakest := (levelsAsc.find? (fun l => decide (l ∈ ls))).getD .A1
    if 2 ≤ (mostFrequent.idx : ℤ) - (weakest.idx : ℤ) then
      levelsAsc.getD (mostFrequent.idx - 1) .A1
    else mostFrequent

/-- **C7.** At test finish, a section's level is the highest level whose
accumulator qualifies (accuracy ≥ 0.6 over ≥ 2 attempts), `A1` when no
level qualifies; and for the four per-section levels the overall level is
the most frequent one with ties broken toward the lower level, pulled one
level down when the weakest section is ≥ 2 levels below it
(`specOverallLevel` is that description read off the spec). -/
theorem placement_final_scoring :
    (∀ (byLevel : Level → ℕ × ℕ) (l : Level),
        qualifies byLevel l = true → l.idx ≤ (determineSectionLevel byLevel).idx) ∧
    (∀ byLevel : Level → ℕ × ℕ,
        qualifies byLevel (determineSectionLevel byLevel) = true ∨
        (determineSectionLevel byLevel = .A1 ∧ ∀ l, qualifies byLevel l = false)) ∧
    (∀ a b c d : Level,
        calculateOverallLevel [a, b, c, d] = specOverallLevel [a, b, c, d]) := by
  refine ⟨?_, ?_, ?_⟩
  · intro byLevel l h
    exact (pickLastSatisfying_spec (qualifies byLevel)).1 l h
  · intro byLevel
    exact (pickLastSatisfying_spec (qualifies byLevel)).2
  · decide

/-- Witness for C7: with two questions attempted and both correct at every
level, every level qualifies, so `B2` lies at or below the section level. -/
theorem placement_final_scoring_witness :
    Level.idx .B2 ≤ (determineSectionLevel (fun _ => (2, 2))).idx :=
  placement_final_scoring.1 (fun _ => (2, 2)) .B2
    (by norm_num [qualifies])

/-! ## Placement question selection (C4) -/

/-- `PlacementTest.selectQuestion(section, level, usedIds)`
(placementTest.js lines 207-222).  A question bank is a list of question
ids per (level, section); a missing bank is the empty list.  The random
index draw `Math.floor(Math.random() * available.length)` is modelled by
an oracle `pick`, clamped to the valid range like the original value. -/
def selectQuestion (banks : Level → TestSection → List ℕ) (pick : ℕ → ℕ)
    (sec : TestSection) (level : Level)
    (used : List (Level × TestSection × ℕ)) : Option (Level × TestSection × ℕ) :=
  let available := (banks level sec).filter (fun i => ¬(level, sec, i) ∈ used)
  if available.length = 0 then none
  else
    let randomIdx := min (pick available.length) (available.length - 1)
    some (level, sec, available.getD randomIdx 0)

/-- The adjacent-level search of `getNextQuestion` (placementTest.js lines
181-195): offsets `+1, -1, +2, -2` from the current level, skipping
out-of-range indices, first hit wins. -/
def tryAdjacent (banks : Level → TestSection → List ℕ) (pick : ℕ → ℕ)
    (sec : TestSection) (level : Level)
    (used : List (Level × TestSection × ℕ)) : Option (Level × TestSection × ℕ) :=
  let idx : ℤ := level.idx
  let candidates : List ℤ := [idx + 1, idx - 1, idx + 2, idx - 2]
  (candidates.filterMap (fun i =>
      if 0 ≤ i ∧ i < 5 then some (levelsAsc.getD i.toNat .A1) else none)).findSome?
    (fun tryLevel => selectQuestion banks pick sec tryLevel used)

/-- Result of one `getNextQuestion` call: the finished marker or a
question. -/
inductive NextQ where
  | finished : NextQ
  | question : Level × TestSection × ℕ → NextQ
deriving DecidableEq, Repr

/-- `PlacementTest.getNextQuestion()` (placementTest.js lines 162-202)
with explicit recursion fuel.  The source recurses on itself (`return
this.getNextQuestion()`) when neither the current level nor the adjacent
levels have an unused question for the section; nothing in the state
changes before that recursive call, so the fuel-free function has no
terminating interpretation — `none` here marks fuel exhaustion. -/
def getNextQuestionFuel (banks : Level → TestSection → List ℕ) (pick : ℕ → ℕ) :
    ℕ → PTState → Option NextQ
  | 0, _ => none
  | fuel + 1, s =>
    if endCheck s then some .finished
    else
      let sec := sectionsOrder.getD (s.questionCount % sectionsOrder.length) .grammar
      match selectQuestion banks pick sec s.currentLevel s.usedIds with
      | some q => some (.question q)
      | none =>
        match tryAdjacent banks pick sec s.currentLevel s.usedIds with
        | some q => some (.question q)
        | none => getNextQuestionFuel banks pick fuel s

/-- Question banks with no questions at all. -/
def emptyBanks : Level → TestSection → List ℕ := fun _ _ => []

/-- The session state right after `startTest()` (placementTest.js lines
100-115): level `A2`, no questions asked. -/
def initSession : PTState :=
  { currentLevel := .A2
    questionCount := 0
    answers := []
    levelHistory := []
    byLevel := fun _ _ => (0, 0)
    usedIds := [] }

/-- **C4.** The selection loop does not terminate when a section's bank is
exhausted at the current level and at distance ≤ 2: the recursive call at
placementTest.js line 198 re-enters `getNextQuestion` with an unchanged
state (`questionCount` is unmodified, so the same section is recomputed),
so for every amount of fuel the computation runs out instead of returning
a question or the finished marker — contradicting the code's own comment
("No more questions available for this section, skip to next") and the
spec's forward-progress guarantee. -/
theorem getNextQuestion_nontermination (pick : ℕ → ℕ) :
    ∀ fuel : ℕ, getNextQuestionFuel emptyBanks pick fuel initSession = none := by
  intro fuel
  induction fuel with
  | zero => rfl
  | succ n ih =>
    have hend : ¬(endCheck initSession = true) := by decide
    have hsel : selectQuestion emptyBanks pick
        (sectionsOrder.getD (initSession.questionCount % sectionsOrder.length) .grammar)
        initSession.currentLevel initSession.usedIds = none := rfl
    have htry : tryAdjacent emptyBanks pick
        (sectionsOrder.getD (initSession.questionCount % sectionsOrder.length) .grammar)
        initSession.currentLevel initSession.usedIds = none := rfl
    simp only [getNextQuestionFuel, if_neg hend, hsel, htry]
    exact ih


/-! ## Vocabulary review sessions (src/js/vocabulary.js) -/

/-- One vocabulary card (`Vocabulary.createCard`, vocabulary.js lines
162-193), restricted to the fields session building reads: the word and
the two per-mode SM-2 records. -/
structure VocabCard where
  word : String
  receptive : SM2Card
  productive : SM2Card
deriving DecidableEq, Repr

/-- `Vocabulary.createCard(wordData)`: both mode records are fresh SM-2
cards created at the same instant. -/
def mkVocabCard (now : ℤ) (word : String) : VocabCard :=
  { word := word
    receptive := createCard now (word ++ "_receptive")
    productive := createCard now (word ++ "_productive") }

/-- The learning modes of `Vocabulary.MODES` that reach `startSession`. -/
inductive VMode where
  | receptive : VMode
  | productive : VMode
deriving DecidableEq, Repr

/-- `mode === MODES.RECEPTIVE ? 'receptive' : 'productive'`. -/
def modeCard (m : VMode) (c : VocabCard) : SM2Card :=
  if m = .receptive then c.receptive else c.productive

/-- `Vocabulary.getDueCards(mode)` (vocabulary.js lines 241-248): cards
whose mode-specific `nextReview` is at or before `now`, sorted by that
timestamp ascending (`Array.prototype.sort` is stable, modelled by a
stable insertion sort). -/
def getDueCards (cards : List VocabCard) (m : VMode) (now : ℤ) : List VocabCard :=
  List.insertionSort
    (fun a b => (modeCard m a).nextReview ≤ (modeCard m b).nextReview)
    (cards.filter (fun c => (modeCard m c).nextReview ≤ now))

/-- `Vocabulary.getNewCards(limit)` (vocabulary.js lines 253-257): cards
whose receptive record is still in `new` status, first `limit` of them. -/
def getNewCards (cards : List VocabCard) (limit : ℕ) : List VocabCard :=
  (cards.filter (fun c => c.receptive.status = .new)).take limit

/-- One `[array[i], array[j]] = [array[j], array[i]]` swap. -/
def swapListElems (l : List α) (i j : ℕ) : List α :=
  match l.get? i, l.get? j with
  | some a, some b => (l.set i b).set j a
  | _, _ => l

/-- The loop of `Vocabulary.shuffleArray` (vocabulary.js lines 573-578):
`for (i = length-1; i > 0; i--) swap(i, rand(i))` with
`rand i = Math.floor(Math.random() * (i+1)) ∈ [0, i]`, the random draw
modelled by an oracle clamped to the same range. -/
def fisherYates (rand : ℕ → ℕ) : ℕ → List α → List α
  | 0, l => l
  | i + 1, l => fisherYates rand i (swapListElems l (i + 1) (min (rand (i + 1)) (i + 1)))

/-- `Vocabulary.shuffleArray(array)`. -/
def shuffleArray (rand : ℕ → ℕ) (l : List α) : List α :=
  match l.length with
  | 0 => l
  | n + 1 => fisherYates rand n l

/-- `Vocabulary.startSession(mode, limit)` (vocabulary.js lines 220-236):
due cards first (capped at `limit`), then new cards filling the remaining
slots, capped again, then shuffled in place. -/
def startSession (rand : ℕ → ℕ) (cards : List VocabCard) (m : VMode)
    (limit : ℕ) (now : ℤ) : List VocabCard :=
  let dueCards := getDueCards cards m now
  let newCards := getNewCards cards (limit - min dueCards.length limit)
  shuffleArray rand ((dueCards.take limit ++ newCards).take limit)

/-- **C9.** A card returned by `createCard` has `nextReview` equal to its
creation time, so it is due immediately; consequently, for the collection
holding one freshly created card, the session queue of
`startSession('receptive', 20)` contains that same card at two distinct
positions — once from the due list and once from the new list, for every
outcome of the shuffle. -/
theorem fresh_card_duplicated_in_session :
    (∀ (now : ℤ) (w : String), (createCard now w).nextReview = now) ∧
    (∀ rand : ℕ → ℕ, ∃ i j : ℕ, i ≠ j ∧
      (startSession rand [mkVocabCard 0 "word"] .receptive 20 0).get? i =
        some (mkVocabCard 0 "word") ∧
      (startSession rand [mkVocabCard 0 "word"] .receptive 20 0).get? j =
        some (mkVocabCard 0 "word")) := by
  constructor
  · intro now w
    rfl
  · intro rand
    have hq : startSession rand [mkVocabCard 0 "word"] .receptive 20 0 =
        swapListElems [mkVocabCard 0 "word", mkVocabCard 0 "word"] 1
          (min (rand 1) 1) := rfl
    have hj : min (rand 1) 1 = 0 ∨ min (rand 1) 1 = 1 := by omega
    have hswap : swapListElems [mkVocabCard 0 "word", mkVocabCard 0 "word"] 1
        (min (rand 1) 1) = [mkVocabCard 0 "word", mkVocabCard 0 "word"] := by
      rcases hj with h | h <;> rw [h] <;> rfl
    refine ⟨0, 1, by norm_num, ?_, ?_⟩ <;> rw [hq, hswap] <;> rfl

end EM
